import Mathlib

/-!
Verification development for the shift-scheduling core of FiFi_Dienstplan
(src/FiFi_Dienstplan.py).  The Python source is shallowly embedded: dates are
abstracted to the attributes the program reads off them, the PuLP model is
represented as an explicit list of named linear constraints over the decision
variables, and the solver is an abstract function from a model to a status and
a valuation.  Fractional hours are rationals; the Python `int()` conversion is
modelled by truncation toward zero.
-/

namespace FiFi

/-- Abstraction of a `pandas`/`datetime` date as the program observes it:
its `%Y-%m-%d` string, `weekday()` (Monday = 0), membership in the computed
holiday set `feiertage`, and `isocalendar()[1]`. -/
structure PyDate where
  ymd : String
  weekday : Nat
  holiday : Bool
  isoWeek : Nat
deriving DecidableEq

instance : Inhabited PyDate := ⟨⟨"", 0, false, 0⟩⟩

/-- `date.strftime("%A")` for the weekday numbers produced by `weekday()`. -/
def dayName (d : PyDate) : String :=
  match d.weekday with
  | 0 => "Monday"
  | 1 => "Tuesday"
  | 2 => "Wednesday"
  | 3 => "Thursday"
  | 4 => "Friday"
  | 5 => "Saturday"
  | 6 => "Sunday"
  | _ => ""

/-- Parameters of one shift kind: duration and start offset in fractional
hours (lines 37-45 of the source). -/
structure ShiftInfo where
  duration : ℚ
  start : ℚ
deriving DecidableEq

/-- `shifts_weekday` (lines 37-40). -/
def shifts_weekday : List (String × ShiftInfo) :=
  [("Frühschicht", ⟨8, 6.75⟩), ("Spätschicht", ⟨8, 14.75⟩)]

/-- `shifts_weekend` (lines 42-45). -/
def shifts_weekend : List (String × ShiftInfo) :=
  [("Frühschicht", ⟨5, 9.25⟩), ("Spätschicht", ⟨6, 14.25⟩)]

/-- `shifts_weekday.keys()`. -/
def weekdayKinds : List String := shifts_weekday.map Prod.fst

/-- `max_consecutive_days = 6` (line 48). -/
def max_consecutive_days : Nat := 6

/-- `max_daily_hours = 8` (line 49). -/
def max_daily_hours : ℚ := 8

/-- `min_rest_time = 11` (line 50). -/
def min_rest_time : ℚ := 11

/-- `allowed_shift_deviation = 2` (line 53). -/
def allowed_shift_deviation : ℚ := 2

/-- `penalty_per_day = 100` (line 54). -/
def penalty_per_day : ℚ := 100

/-- `is_weekend_or_holiday` (lines 72-73): Saturday/Sunday or a holiday. -/
def is_weekend_or_holiday (d : PyDate) : Bool :=
  decide (5 ≤ d.weekday) || d.holiday

/-- The per-date shift catalog selected at lines 76-80 / 83-87. -/
def shift_catalog_for (d : PyDate) : List (String × ShiftInfo) :=
  if is_weekend_or_holiday d then shifts_weekend else shifts_weekday

/-- `get_shift_duration` (lines 75-80). -/
def get_shift_duration (shift : String) (d : PyDate) : ℚ :=
  match (shift_catalog_for d).lookup shift with
  | some info => info.duration
  | none => 0

/-- `get_shift_start` (lines 82-87). -/
def get_shift_start (shift : String) (d : PyDate) : ℚ :=
  match (shift_catalog_for d).lookup shift with
  | some info => info.start
  | none => 0

/-- `get_actual_working_time` (lines 89-94): one hour of unpaid break is
deducted when the duration exceeds 6 hours. -/
def get_actual_working_time (shift : String) (d : PyDate) : ℚ :=
  let duration := get_shift_duration shift d
  if duration > 6 then duration - 1 else duration

/-- An employee record as stored in `employees.json` and read by the core.
Dict-valued fields become association lists. -/
structure Employee where
  name : String
  max_weekly_hours : ℚ
  min_weekly_hours : ℚ
  availability : List (String × List String)
  restrictions : List (String × List String)
  preferences : List (String × List (String × Int))
deriving DecidableEq

/-- `get_preference_score` (lines 96-112): an exact-date entry wins and
short-circuits; otherwise the weekday-name entry; otherwise 0. -/
def get_preference_score (emp : Employee) (d : PyDate) (shift : String) : Int :=
  match emp.preferences.lookup d.ymd with
  | some date_pref => (date_pref.lookup shift).getD 0
  | none =>
    match emp.preferences.lookup (dayName d) with
    | some day_pref => (day_pref.lookup shift).getD 0
    | none => 0

/-- A decision variable of the PuLP model: either a binary assignment
variable (line 131) or an integer soft-overflow variable (line 158). -/
inductive DVar
  | x (e dStr shift : String)
  | cd (e : String) (idx : Nat)
deriving DecidableEq

/-- Direction of a linear constraint. -/
inductive Cmp
  | le
  | ge
  | eq
deriving DecidableEq

/-- Structured constraint names, mirroring the f-string names passed to
`prob +=` in the source. -/
inductive CName
  | softMaxConsecutiveDays (e : String) (idx : Nat)
  | minStaff (dStr shift : String)
  | maxStaff (dStr shift : String)
  | maxWeeklyHours (e : String) (week : Nat)
  | minWeeklyHours (e : String) (week : Nat)
  | maxDailyHours (e dStr : String)
  | maxOneShiftPerDay (e dStr : String)
  | restriction (e dStr shift : String)
  | maxConsecutiveDays (e : String) (idx : Nat)
  | minRestTime (e dStr1 shift1 dStr2 shift2 : String)
  | fairnessMin (e : String)
  | fairnessMax (e : String)
  | fairWeekendHolidayMax (e : String)
  | fairWeekendHolidayMin (e : String)
  | rollingAvg (e dStr : String)
deriving DecidableEq

/-- A linear constraint of the model: named sum of coefficient/variable
terms compared with a rational constant. -/
structure Constraint where
  cname : CName
  lhs : List (ℚ × DVar)
  cmp : Cmp
  rhs : ℚ
deriving DecidableEq

/-- Key of the `assignments` dict: (employee name, date string, shift). -/
abbrev VarKey := String × String × String

/-- The key set of the `assignments` dict built at lines 124-132: one binary
variable per employee, horizon date, and shift kind offered on that date. -/
def assignmentKeys (employees : List Employee) (dates : List PyDate) : List VarKey :=
  employees.flatMap fun e =>
    dates.flatMap fun d =>
      (shift_catalog_for d).map fun p => (e.name, d.ymd, p.1)

/-- `assignments.get((e, d, s), 0) * c`: the term contributed to a linear sum,
empty when the key does not exist (the dict lookup defaults to 0). -/
def getTerm (keys : List VarKey) (c : ℚ) (e dStr shift : String) : List (ℚ × DVar) :=
  if (e, dStr, shift) ∈ keys then [(c, DVar.x e dStr shift)] else []

/-- The 7-day-window sum of lines 161-164 / 241-244: all assignment variables
of the employee over dates `idx .. idx + max_consecutive_days`. -/
def windowLhs (keys : List VarKey) (en : String) (dates : List PyDate) (idx : Nat) :
    List (ℚ × DVar) :=
  (List.range (max_consecutive_days + 1)).flatMap fun j =>
    weekdayKinds.flatMap fun shift =>
      getTerm keys 1 en (dates.getD (idx + j) default).ymd shift

/-- The soft-overflow linkage constraint of line 165,
`var ≥ total_consecutive − max_consecutive_days`, written with all variables
on the left. -/
def softConsecutiveConstraint (keys : List VarKey) (en : String) (dates : List PyDate)
    (idx : Nat) : Constraint :=
  { cname := .softMaxConsecutiveDays en idx
    lhs := (1, DVar.cd en idx) :: (windowLhs keys en dates idx).map (fun t => (-t.1, t.2))
    cmp := .ge
    rhs := -(max_consecutive_days : ℚ) }

/-- Lines 153-167: soft-overflow constraints for every employee and window. -/
def softConstraints (keys : List VarKey) (employees : List Employee) (dates : List PyDate) :
    List Constraint :=
  employees.flatMap fun e =>
    (List.range (dates.length - max_consecutive_days)).map fun idx =>
      softConsecutiveConstraint keys e.name dates idx

/-- Headcount sum of line 180 for one date and shift. -/
def staffingLhs (keys : List VarKey) (employees : List Employee) (dStr shift : String) :
    List (ℚ × DVar) :=
  employees.flatMap fun e => getTerm keys 1 e.name dStr shift

/-- Section 1 (lines 174-184): staffing bounds 2 ≤ headcount ≤ 3 per date and
offered shift. -/
def staffingConstraints (keys : List VarKey) (employees : List Employee)
    (dates : List PyDate) : List Constraint :=
  dates.flatMap fun d =>
    ((shift_catalog_for d).map Prod.fst).flatMap fun shift =>
      [ { cname := .minStaff d.ymd shift, lhs := staffingLhs keys employees d.ymd shift,
          cmp := .ge, rhs := 2 },
        { cname := .maxStaff d.ymd shift, lhs := staffingLhs keys employees d.ymd shift,
          cmp := .le, rhs := 3 } ]

/-- The distinct ISO week numbers of the horizon: the keys of the `weeks`
dict built at lines 187-192. -/
def weekNums (dates : List PyDate) : List Nat :=
  (dates.map fun d => d.isoWeek).dedup

/-- Weekly paid-hours sum of lines 196-200 for one employee over the listed
dates. -/
def weeklyLhs (keys : List VarKey) (en : String) (weekDates : List PyDate) :
    List (ℚ × DVar) :=
  weekDates.flatMap fun d =>
    weekdayKinds.flatMap fun shift =>
      getTerm keys (get_actual_working_time shift d) en d.ymd shift

/-- Section 2 (lines 186-204): weekly working-time bounds per employee and
ISO week number. -/
def weeklyConstraints (keys : List VarKey) (employees : List Employee)
    (dates : List PyDate) : List Constraint :=
  employees.flatMap fun e =>
    (weekNums dates).flatMap fun w =>
      [ { cname := .maxWeeklyHours e.name w
          lhs := weeklyLhs keys e.name (dates.filter fun d => d.isoWeek == w)
          cmp := .le, rhs := e.max_weekly_hours },
        { cname := .minWeeklyHours e.name w
          lhs := weeklyLhs keys e.name (dates.filter fun d => d.isoWeek == w)
          cmp := .ge, rhs := e.min_weekly_hours } ]

/-- Daily paid-hours sum of lines 210-213. -/
def dailyLhs (keys : List VarKey) (en : String) (d : PyDate) : List (ℚ × DVar) :=
  weekdayKinds.flatMap fun shift =>
    getTerm keys (get_actual_working_time shift d) en d.ymd shift

/-- Section 3 (lines 206-214): daily hours ≤ `max_daily_hours`. -/
def dailyConstraints (keys : List VarKey) (employees : List Employee)
    (dates : List PyDate) : List Constraint :=
  employees.flatMap fun e =>
    dates.map fun d =>
      { cname := .maxDailyHours e.name d.ymd, lhs := dailyLhs keys e.name d,
        cmp := .le, rhs := max_daily_hours }

/-- Per-day assignment-count sum of lines 220-223. -/
def oneShiftLhs (keys : List VarKey) (en : String) (d : PyDate) : List (ℚ × DVar) :=
  weekdayKinds.flatMap fun shift => getTerm keys 1 en d.ymd shift

/-- Section 4 (lines 216-223): at most one shift per employee per day. -/
def oneShiftConstraints (keys : List VarKey) (employees : List Employee)
    (dates : List PyDate) : List Constraint :=
  employees.flatMap fun e =>
    dates.map fun d =>
      { cname := .maxOneShiftPerDay e.name d.ymd, lhs := oneShiftLhs keys e.name d,
        cmp := .le, rhs := 1 }

/-- Section 5 (lines 225-236): pin a variable to 0 when the weekday
availability excludes the kind or a date restriction forbids it. -/
def restrictionConstraints (keys : List VarKey) (employees : List Employee)
    (dates : List PyDate) : List Constraint :=
  employees.flatMap fun e =>
    dates.flatMap fun d =>
      weekdayKinds.filterMap fun shift =>
        if (shift ∉ (e.availability.lookup (dayName d)).getD []
              ∨ shift ∈ (e.restrictions.lookup d.ymd).getD [])
            ∧ (e.name, d.ymd, shift) ∈ keys
        then some { cname := .restriction e.name d.ymd shift
                    lhs := [(1, DVar.x e.name d.ymd shift)], cmp := .eq, rhs := 0 }
        else none

/-- The hard consecutive-days cap of line 245. -/
def hardConsecutiveConstraint (keys : List VarKey) (en : String) (dates : List PyDate)
    (idx : Nat) : Constraint :=
  { cname := .maxConsecutiveDays en idx
    lhs := windowLhs keys en dates idx
    cmp := .le
    rhs := (max_consecutive_days : ℚ) }

/-- Section 6 (lines 238-245): hard cap on assigned shifts in every sliding
window of `max_consecutive_days + 1` days. -/
def maxConsecutiveConstraints (keys : List VarKey) (employees : List Employee)
    (dates : List PyDate) : List Constraint :=
  employees.flatMap fun e =>
    (List.range (dates.length - max_consecutive_days)).map fun idx =>
      hardConsecutiveConstraint keys e.name dates idx

/-- Rest-time computation of lines 257-262. -/
def rest_time (current_shift : String) (current_date : PyDate) (next_shift : String)
    (next_date : PyDate) : ℚ :=
  let end_time_current :=
    get_shift_start current_shift current_date + get_shift_duration current_shift current_date
  let start_time_next := get_shift_start next_shift next_date
  (start_time_next + (if start_time_next ≤ end_time_current then 24 else 0)) - end_time_current

/-- The pairwise exclusion constraint of line 264. -/
def minRestConstraint (en : String) (d1 : PyDate) (cs : String) (d2 : PyDate) (ns : String) :
    Constraint :=
  { cname := .minRestTime en d1.ymd cs d2.ymd ns
    lhs := [(1, DVar.x en d1.ymd cs), (1, DVar.x en d2.ymd ns)]
    cmp := .le
    rhs := 1 }

/-- Section 7 (lines 247-264): minimum rest between shifts on adjacent
horizon dates. -/
def minRestConstraints (keys : List VarKey) (employees : List Employee)
    (dates : List PyDate) : List Constraint :=
  employees.flatMap fun e =>
    (List.range (dates.length - 1)).flatMap fun idx =>
      weekdayKinds.flatMap fun current_shift =>
        weekdayKinds.filterMap fun next_shift =>
          if (e.name, (dates.getD idx default).ymd, current_shift) ∈ keys
              ∧ (e.name, (dates.getD (idx + 1) default).ymd, next_shift) ∈ keys
              ∧ rest_time current_shift (dates.getD idx default) next_shift
                  (dates.getD (idx + 1) default) < min_rest_time
          then some (minRestConstraint e.name (dates.getD idx default) current_shift
                      (dates.getD (idx + 1) default) next_shift)
          else none

/-- Total shift-count sum of lines 268-272 for one employee. -/
def totalShiftsLhs (keys : List VarKey) (en : String) (dates : List PyDate) :
    List (ℚ × DVar) :=
  dates.flatMap fun d =>
    weekdayKinds.flatMap fun shift => getTerm keys 1 en d.ymd shift

/-- `total_shifts = len(dates) * 2` (line 135). -/
def total_shifts (dates : List PyDate) : Nat := dates.length * 2

/-- `average_shifts_per_employee` (line 138). -/
def average_shifts_per_employee (employees : List Employee) (dates : List PyDate)
    (e : Employee) : ℚ :=
  e.max_weekly_hours / (employees.map fun e2 => e2.max_weekly_hours).sum
    * (total_shifts dates : ℚ)

/-- Section 8 (lines 266-275): fairness band around the average shift count. -/
def fairnessConstraints (keys : List VarKey) (employees : List Employee)
    (dates : List PyDate) : List Constraint :=
  employees.flatMap fun e =>
    [ { cname := .fairnessMin e.name, lhs := totalShiftsLhs keys e.name dates
        cmp := .ge
        rhs := average_shifts_per_employee employees dates e - allowed_shift_deviation },
      { cname := .fairnessMax e.name, lhs := totalShiftsLhs keys e.name dates
        cmp := .le
        rhs := average_shifts_per_employee employees dates e + allowed_shift_deviation } ]

/-- Weekend/holiday shift-count sum of lines 278-284 for one employee. -/
def weekendShiftsLhs (keys : List VarKey) (en : String) (dates : List PyDate) :
    List (ℚ × DVar) :=
  (dates.filter fun d => is_weekend_or_holiday d).flatMap fun d =>
    weekdayKinds.flatMap fun s => getTerm keys 1 en d.ymd s

/-- The averaged expression of line 291, as a list of scaled terms. -/
def avgWeekendTerms (keys : List VarKey) (employees : List Employee) (dates : List PyDate) :
    List (ℚ × DVar) :=
  if employees.length > 0 then
    (employees.flatMap fun e => weekendShiftsLhs keys e.name dates).map
      (fun t => (t.1 / (employees.length : ℚ), t.2))
  else []

/-- Section 9 (lines 277-296): weekend/holiday fairness band of ±1 around the
average, with the averaged expression moved to the left-hand side. -/
def weekendFairnessConstraints (keys : List VarKey) (employees : List Employee)
    (dates : List PyDate) : List Constraint :=
  employees.flatMap fun e =>
    [ { cname := .fairWeekendHolidayMax e.name
        lhs := weekendShiftsLhs keys e.name dates
                 ++ (avgWeekendTerms keys employees dates).map (fun t => (-t.1, t.2))
        cmp := .le, rhs := 1 },
      { cname := .fairWeekendHolidayMin e.name
        lhs := weekendShiftsLhs keys e.name dates
                 ++ (avgWeekendTerms keys employees dates).map (fun t => (-t.1, t.2))
        cmp := .ge, rhs := -1 } ]

/-- 28-day paid-hours sum of lines 304-308. -/
def rollingLhs (keys : List VarKey) (en : String) (periodDates : List PyDate) :
    List (ℚ × DVar) :=
  periodDates.flatMap fun d =>
    weekdayKinds.flatMap fun shift =>
      getTerm keys (get_actual_working_time shift d) en d.ymd shift

/-- Section 10 (lines 298-309): rolling 28-day caps of 48·4 paid hours. -/
def rollingConstraints (keys : List VarKey) (employees : List Employee)
    (dates : List PyDate) : List Constraint :=
  employees.flatMap fun e =>
    (List.range dates.length).filterMap fun idx =>
      if 27 ≤ idx then
        some { cname := .rollingAvg e.name (dates.getD idx default).ymd
               lhs := rollingLhs keys e.name
                        (List.take (idx + 1 - (idx - 27)) (List.drop (idx - 27) dates))
               cmp := .le, rhs := 48 * 4 }
      else none

/-- All constraints added to `prob`, in source order: the soft-overflow
constraints of lines 153-167 followed by sections 1-10. -/
def buildModel (employees : List Employee) (dates : List PyDate) : List Constraint :=
  let keys := assignmentKeys employees dates
  softConstraints keys employees dates
    ++ staffingConstraints keys employees dates
    ++ weeklyConstraints keys employees dates
    ++ dailyConstraints keys employees dates
    ++ oneShiftConstraints keys employees dates
    ++ restrictionConstraints keys employees dates
    ++ maxConsecutiveConstraints keys employees dates
    ++ minRestConstraints keys employees dates
    ++ fairnessConstraints keys employees dates
    ++ weekendFairnessConstraints keys employees dates
    ++ rollingConstraints keys employees dates

/-- Python `int()` on the rationals that model floats: truncation toward 0. -/
def pytrunc (q : ℚ) : Int := if 0 ≤ q then ⌊q⌋ else -⌊-q⌋

/-- Two-digit zero padding, as in the f-string format `{h:02d}`. -/
def fmt2 (n : Int) : String := (if 0 ≤ n ∧ n < 10 then "0" else "") ++ toString n

/-- Clock string of lines 330-331 / 337: hour is the integer part, minutes
are the fractional part times 60, both truncated. -/
def clockString (t : ℚ) : String :=
  fmt2 (pytrunc t) ++ ":" ++ fmt2 (pytrunc ((t - pytrunc t) * 60))

/-- Clock end string of lines 332-336 / 338: like `clockString`, but the
hour is reduced by 24 when it reaches or exceeds 24; the minutes are computed
before that wrap. -/
def clockEndString (start_time duration : ℚ) : String :=
  let end_time := start_time + duration
  let end_hour := pytrunc end_time
  let end_min := pytrunc ((end_time - end_hour) * 60)
  let wrapped_hour := if end_hour ≥ 24 then end_hour - 24 else end_hour
  fmt2 wrapped_hour ++ ":" ++ fmt2 end_min

/-- One row of the produced schedule (the dict appended at lines 348-356). -/
structure ScheduleEntry where
  datum : String
  wochentag : String
  schicht : String
  startzeit : String
  endzeit : String
  arbeitszeit : ℚ
  pause : String
deriving DecidableEq

/-- The entry built at lines 327-356 for one assigned (shift, date). -/
def mkScheduleEntry (shift : String) (d : PyDate) : ScheduleEntry :=
  let start_time := get_shift_start shift d
  let duration := get_shift_duration shift d
  { datum := d.ymd
    wochentag := dayName d
    schicht := shift
    startzeit := clockString start_time
    endzeit := clockEndString start_time duration
    arbeitszeit := if duration > 6 then duration - 1 else duration
    pause := if duration > 6 then "Ja" else "Nein" }

/-- The list built for one employee by the loops of lines 321-356: an entry
for each date and weekday-catalog kind whose variable both exists and has
solved value exactly 1. -/
def employeeEntries (employees : List Employee) (dates : List PyDate)
    (value : DVar → ℚ) (e : Employee) : List ScheduleEntry :=
  dates.flatMap fun d =>
    weekdayKinds.filterMap fun shift =>
      if (e.name, d.ymd, shift) ∈ assignmentKeys employees dates
          ∧ value (DVar.x e.name d.ymd shift) = 1
      then some (mkScheduleEntry shift d)
      else none

/-- The `dienstplan` dict of lines 318-356, as an association list in
employee order. -/
def extractSchedule (employees : List Employee) (dates : List PyDate)
    (value : DVar → ℚ) : List (String × List ScheduleEntry) :=
  employees.map fun e => (e.name, employeeEntries employees dates value e)

/-- What the external solver hands back: the `LpStatus` string and a value
for every variable. -/
structure SolverOutcome where
  statusStr : String
  value : DVar → ℚ

/-- Failure outcomes of `generate_schedule`.  `noEmployeeData` is the early
return of lines 117-118; `zeroDivision` is the uncaught Python
`ZeroDivisionError` raised at line 138 when the employee max-hours sum is 0;
`notOptimal` is the early return of lines 315-316 carrying the status. -/
inductive ScheduleError
  | noEmployeeData
  | zeroDivision
  | notOptimal (status : String)
deriving DecidableEq

/-- `generate_schedule` (lines 115-358), with the external solver abstracted
as a function of the constraint model. -/
def generate_schedule (employees : List Employee) (dates : List PyDate)
    (solver : List Constraint → SolverOutcome) :
    Except ScheduleError (List (String × List ScheduleEntry)) :=
  if employees.isEmpty then .error .noEmployeeData
  else if (employees.map fun e => e.max_weekly_hours).sum = 0 then .error .zeroDivision
  else
    let outcome := solver (buildModel employees dates)
    if outcome.statusStr ≠ "Optimal" then .error (.notOptimal outcome.statusStr)
    else .ok (extractSchedule employees dates outcome.value)

/-! ### Concrete fixtures used by witnesses -/

/-- Monday 2025-01-06 (ISO week 2, not a holiday). -/
def mon06 : PyDate := ⟨"2025-01-06", 0, false, 2⟩

/-- Tuesday 2025-01-07. -/
def tue07 : PyDate := ⟨"2025-01-07", 1, false, 2⟩

def anna : Employee :=
  ⟨"Anna", 40, 32, [("Monday", weekdayKinds), ("Tuesday", weekdayKinds)], [], []⟩

def ben : Employee := ⟨"Ben", 40, 32, [], [], []⟩

/-- A solver stub that reports a non-optimal status. -/
def badSolver : List Constraint → SolverOutcome := fun _ => ⟨"Infeasible", fun _ => 0⟩

/-- Employee with a conflicting exact-date and weekday-name preference for
the same kind on the same day. -/
def cara : Employee :=
  ⟨"Cara", 40, 32, [], [],
    [("2025-01-06", [("Frühschicht", 5)]), ("Monday", [("Frühschicht", -3)])]⟩

/-- Employee whose record is contradictory: min_weekly_hours 50 exceeds
max_weekly_hours 40. -/
def eve : Employee := ⟨"Eve", 40, 50, [], [], []⟩

/-- Employee with zero weekly hours; a workforce of such employees has
max-hours sum 0. -/
def zeroEmp : Employee := ⟨"Zero", 0, 0, [], [], []⟩

/-- A 7-day horizon 2025-01-06 .. 2025-01-12. -/
def week7 : List PyDate :=
  [⟨"2025-01-06", 0, false, 2⟩, ⟨"2025-01-07", 1, false, 2⟩, ⟨"2025-01-08", 2, false, 2⟩,
   ⟨"2025-01-09", 3, false, 2⟩, ⟨"2025-01-10", 4, false, 2⟩, ⟨"2025-01-11", 5, false, 2⟩,
   ⟨"2025-01-12", 6, false, 2⟩]

/-! ### Helper lemmas -/

lemma weekdayKinds_eq : weekdayKinds = ["Frühschicht", "Spätschicht"] := rfl

lemma kinds_shift_catalog_for (d : PyDate) :
    (shift_catalog_for d).map Prod.fst = weekdayKinds := by
  unfold shift_catalog_for
  split <;> rfl

lemma mem_assignmentKeys {employees : List Employee} {dates : List PyDate} {k : VarKey} :
    k ∈ assignmentKeys employees dates ↔
      (k.1 ∈ employees.map Employee.name ∧ k.2.1 ∈ dates.map PyDate.ymd
        ∧ k.2.2 ∈ weekdayKinds) := by
  obtain ⟨n, dy, s⟩ := k
  simp only [assignmentKeys, List.mem_flatMap, List.mem_map, Prod.mk.injEq]
  constructor
  · rintro ⟨e, he, d, hd, p, hp, rfl, rfl, rfl⟩
    refine ⟨⟨e, he, rfl⟩, ⟨d, hd, rfl⟩, ?_⟩
    rw [← kinds_shift_catalog_for d]
    exact List.mem_map_of_mem Prod.fst hp
  · rintro ⟨⟨e, he, rfl⟩, ⟨d, hd, rfl⟩, hs⟩
    rw [← kinds_shift_catalog_for d] at hs
    obtain ⟨p, hp, hps⟩ := List.mem_map.mp hs
    exact ⟨e, he, d, hd, p, hp, rfl, rfl, hps⟩

lemma getD_mem {l : List PyDate} {i : Nat} (h : i < l.length) : l.getD i default ∈ l := by
  rw [List.getD_eq_getElem l default h]
  exact List.getElem_mem h

lemma key_mem_of {employees : List Employee} {dates : List PyDate} {e : Employee}
    {d : PyDate} {s : String} (he : e ∈ employees) (hd : d ∈ dates)
    (hs : s ∈ weekdayKinds) :
    (e.name, d.ymd, s) ∈ assignmentKeys employees dates := by
  exact mem_assignmentKeys.mpr
    ⟨List.mem_map_of_mem Employee.name he, List.mem_map_of_mem PyDate.ymd hd, hs⟩

lemma getD_ymd_inj {dates : List PyDate} (hnd : (dates.map PyDate.ymd).Nodup)
    {i j : Nat} (hi : i < dates.length) (hj : j < dates.length)
    (h : (dates.getD i default).ymd = (dates.getD j default).ymd) : i = j := by
  rw [List.getD_eq_getElem dates default hi, List.getD_eq_getElem dates default hj] at h
  have hi2 : i < (dates.map PyDate.ymd).length := by simpa using hi
  have hj2 : j < (dates.map PyDate.ymd).length := by simpa using hj
  have h2 : (dates.map PyDate.ymd).get ⟨i, hi2⟩ = (dates.map PyDate.ymd).get ⟨j, hj2⟩ := by
    simpa using h
  have h3 : (⟨i, hi2⟩ : Fin (dates.map PyDate.ymd).length) = ⟨j, hj2⟩ :=
    List.nodup_iff_injective_get.mp hnd h2
  simpa using h3

/-! ### Claim theorems -/

/-- Claim C5: the preference score uses the exact-date entry whenever one
exists for the date (0 when it lacks the kind, the weekday entry being
ignored), otherwise the weekday-name entry (0 when it lacks the kind),
otherwise 0; so an exact-date preference always beats a conflicting
weekday-name preference. -/
theorem C5_preference_resolution (emp : Employee) (d : PyDate) (shift : String) :
    (∀ dp, emp.preferences.lookup d.ymd = some dp →
        get_preference_score emp d shift = (dp.lookup shift).getD 0)
    ∧ (emp.preferences.lookup d.ymd = none →
        ∀ wp, emp.preferences.lookup (dayName d) = some wp →
          get_preference_score emp d shift = (wp.lookup shift).getD 0)
    ∧ (emp.preferences.lookup d.ymd = none →
        emp.preferences.lookup (dayName d) = none →
        get_preference_score emp d shift = 0) := by
  refine ⟨fun dp hdp => ?_, fun h0 wp hwp => ?_, fun h0 h1 => ?_⟩ <;>
    simp [get_preference_score, *]

/-- Witness for C5: on 2025-01-06 (a Monday) the exact-date value 5 wins
over the weekday value -3. -/
theorem C5_witness : get_preference_score cara mon06 "Frühschicht" = 5 := by
  have h := (C5_preference_resolution cara mon06 "Frühschicht").1
    [("Frühschicht", (5 : Int))] (by decide)
  simpa using h

/-- Claim C7: with an empty employee set, `generate_schedule` returns the
no-employee-data failure for every horizon and every solver, so neither the
model nor the solver is ever consulted. -/
theorem C7_empty_employees (dates : List PyDate)
    (solver : List Constraint → SolverOutcome) :
    generate_schedule [] dates solver = .error .noEmployeeData := rfl

/-- Claim C6: whenever the solver reports a status other than `Optimal` on a
run that reaches it, the run returns the failure carrying that status, and
no schedule value at all. -/
theorem C6_non_optimal_is_failure (employees : List Employee) (dates : List PyDate)
    (solver : List Constraint → SolverOutcome)
    (hne : employees.isEmpty = false)
    (hmax : (employees.map fun e => e.max_weekly_hours).sum ≠ 0)
    (hstatus : (solver (buildModel employees dates)).statusStr ≠ "Optimal") :
    generate_schedule employees dates solver =
      .error (.notOptimal (solver (buildModel employees dates)).statusStr) := by
  simp [generate_schedule, hne, hmax, hstatus]

/-- Witness for C6: a two-employee run whose solver reports `Infeasible`. -/
theorem C6_witness :
    generate_schedule [anna, ben] [mon06] badSolver = .error (.notOptimal "Infeasible") := by
  have h := C6_non_optimal_is_failure [anna, ben] [mon06] badSolver
    (by decide) (by norm_num [anna, ben]) (by decide)
  simpa [badSolver] using h

/-- Claim C9 (code bug): extraction compares the solved value with 1 by
exact equality (line 326); a value strictly greater than 0.5 such as 3/5 is
not snapped to 1 but silently produces no entry. -/
theorem C9_no_threshold_snapping :
    ((1 : ℚ) / 2 < 3 / 5 ∧ ((3 : ℚ) / 5 = 1) = False)
    ∧ extractSchedule [anna] [mon06] (fun _ => 3 / 5) = [("Anna", [])] := by
  constructor
  · norm_num
  · norm_num [extractSchedule, employeeEntries, weekdayKinds, shifts_weekday, anna]

/-- Claim C10: the decision-variable key set is exactly
employees × horizon dates × offered kinds; both catalogs offer the same two
kinds, so this is employees × dates × (Frühschicht, Spätschicht) and every
sum iterating the weekday kinds covers all variables; the number of
(date, kind) slots equals `total_shifts = len(dates) * 2`. -/
theorem C10_key_set_product (employees : List Employee) (dates : List PyDate) :
    (∀ k : VarKey, k ∈ assignmentKeys employees dates ↔
        (k.1 ∈ employees.map Employee.name ∧ k.2.1 ∈ dates.map PyDate.ymd
          ∧ k.2.2 ∈ ["Frühschicht", "Spätschicht"]))
    ∧ (∀ d : PyDate, (shift_catalog_for d).map Prod.fst = weekdayKinds
        ∧ weekdayKinds = ["Frühschicht", "Spätschicht"])
    ∧ (dates.flatMap fun d => (shift_catalog_for d).map fun p => (d.ymd, p.1)).length
        = total_shifts dates := by
  refine ⟨fun k => ?_, fun d => ⟨kinds_shift_catalog_for d, rfl⟩, ?_⟩
  · rw [← weekdayKinds_eq]
    exact mem_assignmentKeys
  · induction dates with
    | nil => rfl
    | cons d ds ih =>
      have h2 : (shift_catalog_for d).length = 2 := by
        unfold shift_catalog_for
        split <;> rfl
      simp only [List.flatMap_cons, List.length_append, List.length_map, h2, ih, total_shifts,
        List.length_cons]
      omega

/-- Claim C1: every (employee, date, kind) variable solved to 1 yields an
entry in that employee's list; the entry keeps the start date, computes
clock strings by hour/minute truncation with the ≥24 wrap on the end hour,
and pays duration − 1 with break flag exactly when duration > 6.  On a
weekday, Spätschicht (start 14.75, duration 8) gives start 14:45, end 22:45,
paid 7, break taken; a raw start of 22.0 with duration 8 wraps to 06:00. -/
theorem C1_extraction_round_trip :
    (∀ (employees : List Employee) (dates : List PyDate) (value : DVar → ℚ)
        (e : Employee) (d : PyDate) (shift : String),
        e ∈ employees → d ∈ dates → shift ∈ weekdayKinds →
        value (DVar.x e.name d.ymd shift) = 1 →
        mkScheduleEntry shift d ∈ employeeEntries employees dates value e
          ∧ (e.name, employeeEntries employees dates value e)
              ∈ extractSchedule employees dates value)
    ∧ (∀ shift d, (mkScheduleEntry shift d).datum = d.ymd
        ∧ (mkScheduleEntry shift d).startzeit = clockString (get_shift_start shift d)
        ∧ (mkScheduleEntry shift d).endzeit
            = clockEndString (get_shift_start shift d) (get_shift_duration shift d)
        ∧ (mkScheduleEntry shift d).arbeitszeit
            = (if get_shift_duration shift d > 6 then get_shift_duration shift d - 1
               else get_shift_duration shift d)
        ∧ (mkScheduleEntry shift d).pause
            = (if get_shift_duration shift d > 6 then "Ja" else "Nein"))
    ∧ (∀ d, is_weekend_or_holiday d = false →
        mkScheduleEntry "Spätschicht" d
          = { datum := d.ymd, wochentag := dayName d, schicht := "Spätschicht",
              startzeit := "14:45", endzeit := "22:45", arbeitszeit := 7, pause := "Ja" })
    ∧ clockEndString 22 8 = "06:00" := by
  refine ⟨?_, fun shift d => ⟨rfl, rfl, rfl, rfl, rfl⟩, ?_, ?_⟩
  · intro employees dates value e d shift he hd hs hv
    constructor
    · refine List.mem_flatMap.mpr ⟨d, hd, ?_⟩
      refine List.mem_filterMap.mpr ⟨shift, hs, ?_⟩
      rw [if_pos ⟨key_mem_of he hd hs, hv⟩]
    · exact List.mem_map_of_mem _ he
  · intro d hwd
    have hstart : get_shift_start "Spätschicht" d = 14.75 := by
      unfold get_shift_start shift_catalog_for
      rw [hwd]
      rfl
    have hdur : get_shift_duration "Spätschicht" d = 8 := by
      unfold get_shift_duration shift_catalog_for
      rw [hwd]
      rfl
    have h1 : clockString (14.75 : ℚ) = "14:45" := by
      norm_num [clockString, pytrunc, fmt2]; rfl
    have h2 : clockEndString (14.75 : ℚ) 8 = "22:45" := by
      norm_num [clockEndString, pytrunc, fmt2]; rfl
    simp only [mkScheduleEntry, hstart, hdur, h1, h2]
    norm_num
  · norm_num [clockEndString, pytrunc, fmt2]; rfl

/-- Witness for C1: with value 1 on every variable, the weekday Spätschicht
entry for Anna on 2025-01-06 is emitted. -/
theorem C1_witness :
    mkScheduleEntry "Spätschicht" mon06 ∈ employeeEntries [anna] [mon06] (fun _ => 1) anna
      ∧ (anna.name, employeeEntries [anna] [mon06] (fun _ => 1) anna)
          ∈ extractSchedule [anna] [mon06] (fun _ => 1) :=
  C1_extraction_round_trip.1 [anna] [mon06] (fun _ => 1) anna mon06 "Spätschicht"
    (by simp) (by simp) (by decide) rfl

/-! ### Membership characterizations for the model sections -/

lemma mem_buildModel {employees : List Employee} {dates : List PyDate} {c : Constraint} :
    c ∈ buildModel employees dates ↔
      c ∈ softConstraints (assignmentKeys employees dates) employees dates
      ∨ c ∈ staffingConstraints (assignmentKeys employees dates) employees dates
      ∨ c ∈ weeklyConstraints (assignmentKeys employees dates) employees dates
      ∨ c ∈ dailyConstraints (assignmentKeys employees dates) employees dates
      ∨ c ∈ oneShiftConstraints (assignmentKeys employees dates) employees dates
      ∨ c ∈ restrictionConstraints (assignmentKeys employees dates) employees dates
      ∨ c ∈ maxConsecutiveConstraints (assignmentKeys employees dates) employees dates
      ∨ c ∈ minRestConstraints (assignmentKeys employees dates) employees dates
      ∨ c ∈ fairnessConstraints (assignmentKeys employees dates) employees dates
      ∨ c ∈ weekendFairnessConstraints (assignmentKeys employees dates) employees dates
      ∨ c ∈ rollingConstraints (assignmentKeys employees dates) employees dates := by
  simp [buildModel, List.mem_append, or_assoc]

lemma mem_softConstraints {keys : List VarKey} {employees : List Employee}
    {dates : List PyDate} {c : Constraint} :
    c ∈ softConstraints keys employees dates ↔
      ∃ e ∈ employees, ∃ idx < dates.length - max_consecutive_days,
        c = softConsecutiveConstraint keys e.name dates idx := by
  simp only [softConstraints, List.mem_flatMap, List.mem_map, List.mem_range]
  constructor
  · rintro ⟨e, he, idx, hidx, rfl⟩
    exact ⟨e, he, idx, hidx, rfl⟩
  · rintro ⟨e, he, idx, hidx, rfl⟩
    exact ⟨e, he, idx, hidx, rfl⟩

lemma mem_maxConsecutiveConstraints {keys : List VarKey} {employees : List Employee}
    {dates : List PyDate} {c : Constraint} :
    c ∈ maxConsecutiveConstraints keys employees dates ↔
      ∃ e ∈ employees, ∃ idx < dates.length - max_consecutive_days,
        c = hardConsecutiveConstraint keys e.name dates idx := by
  simp only [maxConsecutiveConstraints, List.mem_flatMap, List.mem_map, List.mem_range]
  constructor
  · rintro ⟨e, he, idx, hidx, rfl⟩
    exact ⟨e, he, idx, hidx, rfl⟩
  · rintro ⟨e, he, idx, hidx, rfl⟩
    exact ⟨e, he, idx, hidx, rfl⟩

lemma mem_weeklyConstraints {keys : List VarKey} {employees : List Employee}
    {dates : List PyDate} {c : Constraint} :
    c ∈ weeklyConstraints keys employees dates ↔
      ∃ e ∈ employees, ∃ w ∈ weekNums dates,
        (c = { cname := .maxWeeklyHours e.name w
               lhs := weeklyLhs keys e.name (dates.filter fun d => d.isoWeek == w)
               cmp := .le, rhs := e.max_weekly_hours }
          ∨ c = { cname := .minWeeklyHours e.name w
                  lhs := weeklyLhs keys e.name (dates.filter fun d => d.isoWeek == w)
                  cmp := .ge, rhs := e.min_weekly_hours }) := by
  simp only [weeklyConstraints, List.mem_flatMap, List.mem_cons, List.not_mem_nil, or_false]

lemma mem_minRestConstraints {keys : List VarKey} {employees : List Employee}
    {dates : List PyDate} {c : Constraint} :
    c ∈ minRestConstraints keys employees dates ↔
      ∃ e ∈ employees, ∃ idx < dates.length - 1,
        ∃ cs ∈ weekdayKinds, ∃ ns ∈ weekdayKinds,
          ((e.name, (dates.getD idx default).ymd, cs) ∈ keys
            ∧ (e.name, (dates.getD (idx + 1) default).ymd, ns) ∈ keys
            ∧ rest_time cs (dates.getD idx default) ns (dates.getD (idx + 1) default)
                < min_rest_time)
          ∧ c = minRestConstraint e.name (dates.getD idx default) cs
                  (dates.getD (idx + 1) default) ns := by
  simp only [minRestConstraints, List.mem_flatMap, List.mem_filterMap, List.mem_range,
    Option.ite_none_right_eq_some, Option.some.injEq]
  constructor
  · rintro ⟨e, he, idx, hidx, cs, hcs, ns, hns, hcond, rfl⟩
    exact ⟨e, he, idx, hidx, cs, hcs, ns, hns, hcond, rfl⟩
  · rintro ⟨e, he, idx, hidx, cs, hcs, ns, hns, hcond, rfl⟩
    exact ⟨e, he, idx, hidx, cs, hcs, ns, hns, hcond, rfl⟩

lemma cname_staffing {keys : List VarKey} {employees : List Employee} {dates : List PyDate}
    {c : Constraint} (h : c ∈ staffingConstraints keys employees dates) :
    ∃ a b, c.cname = CName.minStaff a b ∨ c.cname = CName.maxStaff a b := by
  simp only [staffingConstraints, List.mem_flatMap, List.mem_cons, List.not_mem_nil,
    or_false] at h
  obtain ⟨d, _, s, _, h | h⟩ := h <;> subst h
  · exact ⟨_, _, Or.inl rfl⟩
  · exact ⟨_, _, Or.inr rfl⟩

lemma cname_daily {keys : List VarKey} {employees : List Employee} {dates : List PyDate}
    {c : Constraint} (h : c ∈ dailyConstraints keys employees dates) :
    ∃ a b, c.cname = CName.maxDailyHours a b := by
  simp only [dailyConstraints, List.mem_flatMap, List.mem_map] at h
  obtain ⟨e, _, d, _, h⟩ := h
  subst h
  exact ⟨_, _, rfl⟩

lemma cname_oneShift {keys : List VarKey} {employees : List Employee} {dates : List PyDate}
    {c : Constraint} (h : c ∈ oneShiftConstraints keys employees dates) :
    ∃ a b, c.cname = CName.maxOneShiftPerDay a b := by
  simp only [oneShiftConstraints, List.mem_flatMap, List.mem_map] at h
  obtain ⟨e, _, d, _, h⟩ := h
  subst h
  exact ⟨_, _, rfl⟩

lemma cname_restriction {keys : List VarKey} {employees : List Employee} {dates : List PyDate}
    {c : Constraint} (h : c ∈ restrictionConstraints keys employees dates) :
    ∃ a b s, c.cname = CName.restriction a b s := by
  simp only [restrictionConstraints, List.mem_flatMap, List.mem_filterMap,
    Option.ite_none_right_eq_some, Option.some.injEq] at h
  obtain ⟨e, _, d, _, s, _, _, h⟩ := h
  subst h
  exact ⟨_, _, _, rfl⟩

lemma cname_fairness {keys : List VarKey} {employees : List Employee} {dates : List PyDate}
    {c : Constraint} (h : c ∈ fairnessConstraints keys employees dates) :
    ∃ a, c.cname = CName.fairnessMin a ∨ c.cname = CName.fairnessMax a := by
  simp only [fairnessConstraints, List.mem_flatMap, List.mem_cons, List.not_mem_nil,
    or_false] at h
  obtain ⟨e, _, h | h⟩ := h <;> subst h
  · exact ⟨_, Or.inl rfl⟩
  · exact ⟨_, Or.inr rfl⟩

lemma cname_weekendFairness {keys : List VarKey} {employees : List Employee}
    {dates : List PyDate} {c : Constraint}
    (h : c ∈ weekendFairnessConstraints keys employees dates) :
    ∃ a, c.cname = CName.fairWeekendHolidayMax a ∨ c.cname = CName.fairWeekendHolidayMin a := by
  simp only [weekendFairnessConstraints, List.mem_flatMap, List.mem_cons, List.not_mem_nil,
    or_false] at h
  obtain ⟨e, _, h | h⟩ := h <;> subst h
  · exact ⟨_, Or.inl rfl⟩
  · exact ⟨_, Or.inr rfl⟩

lemma cname_rolling {keys : List VarKey} {employees : List Employee} {dates : List PyDate}
    {c : Constraint} (h : c ∈ rollingConstraints keys employees dates) :
    ∃ a b, c.cname = CName.rollingAvg a b := by
  simp only [rollingConstraints, List.mem_flatMap, List.mem_filterMap, List.mem_range,
    Option.ite_none_right_eq_some, Option.some.injEq] at h
  obtain ⟨e, _, idx, _, _, h⟩ := h
  subst h
  exact ⟨_, _, rfl⟩

lemma cname_weekly {keys : List VarKey} {employees : List Employee} {dates : List PyDate}
    {c : Constraint} (h : c ∈ weeklyConstraints keys employees dates) :
    ∃ a b, c.cname = CName.maxWeeklyHours a b ∨ c.cname = CName.minWeeklyHours a b := by
  obtain ⟨e, _, w, _, h | h⟩ := mem_weeklyConstraints.mp h <;> subst h
  · exact ⟨_, _, Or.inl rfl⟩
  · exact ⟨_, _, Or.inr rfl⟩

/-- Every model constraint is a soft or hard consecutive-day window
constraint with an in-range index, a minimum-rest constraint, or has a name
unrelated to those three families. -/
lemma buildModel_cname_cases {employees : List Employee} {dates : List PyDate} {c : Constraint}
    (h : c ∈ buildModel employees dates) :
    (∃ en idx, idx < dates.length - max_consecutive_days
        ∧ c = softConsecutiveConstraint (assignmentKeys employees dates) en dates idx)
    ∨ (∃ en idx, idx < dates.length - max_consecutive_days
        ∧ c = hardConsecutiveConstraint (assignmentKeys employees dates) en dates idx)
    ∨ (c ∈ minRestConstraints (assignmentKeys employees dates) employees dates)
    ∨ ((∀ a b, c.cname ≠ CName.softMaxConsecutiveDays a b)
        ∧ (∀ a b, c.cname ≠ CName.maxConsecutiveDays a b)
        ∧ (∀ a b g u v, c.cname ≠ CName.minRestTime a b g u v)) := by
  rcases mem_buildModel.mp h with h | h | h | h | h | h | h | h | h | h | h
  · obtain ⟨e, _, idx, hidx, rfl⟩ := mem_softConstraints.mp h
    exact Or.inl ⟨e.name, idx, hidx, rfl⟩
  · obtain ⟨a, b, hcn | hcn⟩ := cname_staffing h <;>
      exact Or.inr (Or.inr (Or.inr (by simp [hcn])))
  · obtain ⟨a, b, hcn | hcn⟩ := cname_weekly h <;>
      exact Or.inr (Or.inr (Or.inr (by simp [hcn])))
  · obtain ⟨a, b, hcn⟩ := cname_daily h
    exact Or.inr (Or.inr (Or.inr (by simp [hcn])))
  · obtain ⟨a, b, hcn⟩ := cname_oneShift h
    exact Or.inr (Or.inr (Or.inr (by simp [hcn])))
  · obtain ⟨a, b, s, hcn⟩ := cname_restriction h
    exact Or.inr (Or.inr (Or.inr (by simp [hcn])))
  · obtain ⟨e, _, idx, hidx, rfl⟩ := mem_maxConsecutiveConstraints.mp h
    exact Or.inr (Or.inl ⟨e.name, idx, hidx, rfl⟩)
  · exact Or.inr (Or.inr (Or.inl h))
  · obtain ⟨a, hcn | hcn⟩ := cname_fairness h <;>
      exact Or.inr (Or.inr (Or.inr (by simp [hcn])))
  · obtain ⟨a, hcn | hcn⟩ := cname_weekendFairness h <;>
      exact Or.inr (Or.inr (Or.inr (by simp [hcn])))
  · obtain ⟨a, b, hcn⟩ := cname_rolling h
    exact Or.inr (Or.inr (Or.inr (by simp [hcn])))

lemma weekly_mem_buildModel {employees : List Employee} {dates : List PyDate} {e : Employee}
    {w : Nat} (he : e ∈ employees) (hw : w ∈ weekNums dates) :
    ({ cname := .maxWeeklyHours e.name w
       lhs := weeklyLhs (assignmentKeys employees dates) e.name
                (dates.filter fun d => d.isoWeek == w)
       cmp := .le, rhs := e.max_weekly_hours } : Constraint) ∈ buildModel employees dates
    ∧ ({ cname := .minWeeklyHours e.name w
         lhs := weeklyLhs (assignmentKeys employees dates) e.name
                  (dates.filter fun d => d.isoWeek == w)
         cmp := .ge, rhs := e.min_weekly_hours } : Constraint) ∈ buildModel employees dates := by
  constructor <;>
    · apply mem_buildModel.mpr
      refine Or.inr (Or.inr (Or.inl (mem_weeklyConstraints.mpr ⟨e, he, w, hw, ?_⟩)))
      simp

/-! ### Remaining claim theorems -/

/-- Claim C4: for each employee and each ISO week number occurring in the
horizon, the model contains both weekly bounds on the sum of assignment
variables weighted by the actual paid time, which deducts one hour exactly
when the duration exceeds 6. -/
theorem C4_weekly_hours_bounds (employees : List Employee) (dates : List PyDate)
    (e : Employee) (w : Nat) (he : e ∈ employees) (hw : w ∈ weekNums dates) :
    ({ cname := .maxWeeklyHours e.name w
       lhs := weeklyLhs (assignmentKeys employees dates) e.name
                (dates.filter fun d => d.isoWeek == w)
       cmp := .le, rhs := e.max_weekly_hours } : Constraint) ∈ buildModel employees dates
    ∧ ({ cname := .minWeeklyHours e.name w
         lhs := weeklyLhs (assignmentKeys employees dates) e.name
                  (dates.filter fun d => d.isoWeek == w)
         cmp := .ge, rhs := e.min_weekly_hours } : Constraint) ∈ buildModel employees dates
    ∧ ∀ shift d, get_actual_working_time shift d
        = (if get_shift_duration shift d > 6 then get_shift_duration shift d - 1
           else get_shift_duration shift d) :=
  ⟨(weekly_mem_buildModel he hw).1, (weekly_mem_buildModel he hw).2, fun _ _ => rfl⟩

/-- Witness for C4: both weekly constraints for Anna in ISO week 2 of a
two-day horizon are in the model. -/
theorem C4_witness :
    ({ cname := .maxWeeklyHours anna.name 2
       lhs := weeklyLhs (assignmentKeys [anna] [mon06, tue07]) anna.name
                ([mon06, tue07].filter fun d => d.isoWeek == 2)
       cmp := .le, rhs := anna.max_weekly_hours } : Constraint)
        ∈ buildModel [anna] [mon06, tue07] :=
  (C4_weekly_hours_bounds [anna] [mon06, tue07] anna 2 (by simp) (by decide)).1

/-- Claim C2: the pairwise minimum-rest exclusion for an employee, adjacent
horizon dates and a kind pair is in the model exactly when the rest time,
computed with the +24 midnight adjustment, is strictly below
`min_rest_time` (11). -/
theorem C2_min_rest_exclusions (employees : List Employee) (dates : List PyDate)
    (e : Employee) (idx : Nat) (cs ns : String)
    (he : e ∈ employees) (hidx : idx + 1 < dates.length)
    (hnd : (dates.map PyDate.ymd).Nodup)
    (hcs : cs ∈ weekdayKinds) (hns : ns ∈ weekdayKinds) :
    (minRestConstraint e.name (dates.getD idx default) cs (dates.getD (idx + 1) default) ns
        ∈ buildModel employees dates)
      ↔ rest_time cs (dates.getD idx default) ns (dates.getD (idx + 1) default)
          < min_rest_time := by
  constructor
  · intro h
    rcases buildModel_cname_cases h with ⟨en, i, _, hceq⟩ | ⟨en, i, _, hceq⟩ | h | ⟨_, _, hne⟩
    · exact absurd (congrArg Constraint.cname hceq)
        (by simp [minRestConstraint, softConsecutiveConstraint])
    · exact absurd (congrArg Constraint.cname hceq)
        (by simp [minRestConstraint, hardConsecutiveConstraint])
    · obtain ⟨e2, he2, idx2, hidx2, cs2, hcs2, ns2, hns2, hcond, hceq⟩ :=
        mem_minRestConstraints.mp h
      have hcn := congrArg Constraint.cname hceq
      simp only [minRestConstraint] at hcn
      injection hcn with h1 h2 h3 h4 h5
      have hidx2' : idx2 = idx :=
        getD_ymd_inj hnd (by omega) (by omega) h2.symm
      subst hidx2'
      rw [h3, h5]
      exact hcond.2.2
    · exact absurd rfl (hne _ _ _ _ _)
  · intro hrest
    apply mem_buildModel.mpr
    refine Or.inr (Or.inr (Or.inr (Or.inr (Or.inr (Or.inr (Or.inr (Or.inl
      (mem_minRestConstraints.mpr ⟨e, he, idx, by omega, cs, hcs, ns, hns, ?_, rfl⟩))))))))
    exact ⟨key_mem_of he (getD_mem (by omega)) hcs,
      key_mem_of he (getD_mem (by omega)) hns, hrest⟩

/-- Witness for C2: for Anna, Spätschicht on Monday followed by Frühschicht
on Tuesday (rest 8 hours), the exclusion constraint is present if and only
if 8 is below 11. -/
theorem C2_witness :
    (minRestConstraint anna.name mon06 "Spätschicht" tue07 "Frühschicht"
        ∈ buildModel [anna] [mon06, tue07])
      ↔ rest_time "Spätschicht" mon06 "Frühschicht" tue07 < min_rest_time := by
  have h := C2_min_rest_exclusions [anna] [mon06, tue07] anna 0 "Spätschicht" "Frühschicht"
    (by simp) (by norm_num) (by decide) (by decide) (by decide)
  simpa using h

/-- Claim C3: every in-range window start yields the hard consecutive-days
cap in the model; every such constraint in the model has an in-range start
index; and a horizon shorter than `max_consecutive_days + 1` days has no
hard window constraint and no soft-overflow constraint at all. -/
theorem C3_consecutive_windows (employees : List Employee) (dates : List PyDate) :
    (∀ e ∈ employees, ∀ idx, idx < dates.length - max_consecutive_days →
        hardConsecutiveConstraint (assignmentKeys employees dates) e.name dates idx
          ∈ buildModel employees dates)
    ∧ (∀ c ∈ buildModel employees dates, ∀ en idx,
        c.cname = CName.maxConsecutiveDays en idx →
          idx < dates.length - max_consecutive_days)
    ∧ (dates.length < max_consecutive_days + 1 →
        ∀ c ∈ buildModel employees dates,
          (∀ en idx, c.cname ≠ CName.maxConsecutiveDays en idx)
            ∧ (∀ en idx, c.cname ≠ CName.softMaxConsecutiveDays en idx)) := by
  refine ⟨?_, ?_, ?_⟩
  · intro e he idx hidx
    apply mem_buildModel.mpr
    refine Or.inr (Or.inr (Or.inr (Or.inr (Or.inr (Or.inr (Or.inl
      (mem_maxConsecutiveConstraints.mpr ⟨e, he, idx, hidx, rfl⟩)))))))
  · intro c hc en idx hcn
    rcases buildModel_cname_cases hc with ⟨en2, i, hi, hceq⟩ | ⟨en2, i, hi, hceq⟩ | h | ⟨_, h2, _⟩
    · rw [hceq] at hcn
      exact absurd hcn (by simp [softConsecutiveConstraint])
    · rw [hceq] at hcn
      have : i = idx := by
        have h9 := hcn
        simp only [hardConsecutiveConstraint, CName.maxConsecutiveDays.injEq] at h9
        exact h9.2
      omega
    · obtain ⟨e2, _, idx2, _, cs2, _, ns2, _, _, hceq⟩ := mem_minRestConstraints.mp h
      rw [hceq] at hcn
      exact absurd hcn (by simp [minRestConstraint])
    · exact absurd hcn (h2 _ _)
  · intro hshort c hc
    have hzero : dates.length - max_consecutive_days = 0 := by omega
    constructor <;> intro en idx hcn
    · rcases buildModel_cname_cases hc with ⟨en2, i, hi, _⟩ | ⟨en2, i, hi, hceq⟩ | h | ⟨_, h2, _⟩
      · omega
      · omega
      · obtain ⟨e2, _, idx2, _, cs2, _, ns2, _, _, hceq⟩ := mem_minRestConstraints.mp h
        rw [hceq] at hcn
        exact absurd hcn (by simp [minRestConstraint])
      · exact absurd hcn (h2 _ _)
    · rcases buildModel_cname_cases hc with ⟨en2, i, hi, _⟩ | ⟨en2, i, hi, hceq⟩ | h | ⟨h1, _, _⟩
      · omega
      · omega
      · obtain ⟨e2, _, idx2, _, cs2, _, ns2, _, _, hceq⟩ := mem_minRestConstraints.mp h
        rw [hceq] at hcn
        exact absurd hcn (by simp [minRestConstraint])
      · exact absurd hcn (h1 _ _)

/-- Witness for C3: on a 7-day horizon the window constraint at index 0 is
in the model. -/
theorem C3_witness :
    hardConsecutiveConstraint (assignmentKeys [anna] week7) anna.name week7 0
      ∈ buildModel [anna] week7 :=
  (C3_consecutive_windows [anna] week7).1 anna (by simp) 0 (by decide)

/-- Claim C8 (code bug): no InvalidEmployeeConfiguration validation exists.
A workforce whose max-hours sum is 0 makes the run die with the uncaught
division by zero of line 138 (modelled as the zeroDivision outcome), and a
record with min_weekly_hours 50 > max_weekly_hours 40 is not rejected: its
two contradictory weekly bounds are simply emitted into the model, leaving
the problem to surface as solver infeasibility. -/
theorem C8_missing_validation :
    (∀ (dates : List PyDate) (solver : List Constraint → SolverOutcome),
        generate_schedule [zeroEmp] dates solver = .error .zeroDivision)
    ∧ ({ cname := .maxWeeklyHours eve.name 2
         lhs := weeklyLhs (assignmentKeys [eve] [mon06]) eve.name
                  ([mon06].filter fun d => d.isoWeek == 2)
         cmp := .le, rhs := eve.max_weekly_hours } : Constraint) ∈ buildModel [eve] [mon06]
    ∧ ({ cname := .minWeeklyHours eve.name 2
         lhs := weeklyLhs (assignmentKeys [eve] [mon06]) eve.name
                  ([mon06].filter fun d => d.isoWeek == 2)
         cmp := .ge, rhs := eve.min_weekly_hours } : Constraint) ∈ buildModel [eve] [mon06]
    ∧ eve.max_weekly_hours < eve.min_weekly_hours := by
  refine ⟨?_, (weekly_mem_buildModel (by simp) (by decide)).1,
    (weekly_mem_buildModel (by simp) (by decide)).2, by norm_num [eve]⟩
  intro dates solver
  simp [generate_schedule, zeroEmp]

end FiFi
